import Mathlib

/-!
Shallow embedding of the fragment-fusion script `script/fuse_fragments_3DMatch.py`
and of the registration evaluation used by `misc/icp_registration.py`
(PPF-FoldNet repository), together with proofs about the embedded operations.

Modelling conventions:
* 4x4 pose matrices are `Matrix (Fin 4) (Fin 4) ℚ` (exact arithmetic in place of
  `float32`); `np.linalg.inv` is modelled by `minv` below, which agrees with the
  Mathlib matrix inverse.
* A pose text file on disk is a 4x4 grid of entries, each either a number or NaN;
  we model NaN entries as `Option.none`.  The file system is a partial map from
  path strings to such grids; a missing file makes `np.loadtxt` raise, which the
  embedding models with `Except`.
* The TSDF volume is external (Open3D); the embedding records its construction
  parameters and the exact sequence of `integrate` calls it receives.
-/

/-- 4x4 matrices over ℚ, standing for `numpy` `(4,4) float32` arrays. -/
abbrev M4 := Matrix (Fin 4) (Fin 4) ℚ

/-- Model of `np.linalg.inv` on 4x4 matrices: over the field ℚ this closed form
`det⁻¹ • adjugate` coincides with Mathlib's `Matrix.inv` (see `minv_eq_inv`). -/
def minv (m : M4) : M4 := m.det⁻¹ • m.adjugate

/-- The contents of a pose text file: a 4x4 grid whose entries are either
numbers (`some q`) or NaN (`none`). -/
abbrev PoseFile := Matrix (Fin 4) (Fin 4) (Option ℚ)

/-- The file system visible to the script, restricted to pose files:
`poseFile p = none` means no file exists at path `p`. -/
structure FS where
  poseFile : String → Option PoseFile

/-- Error raised by `np.loadtxt` when the file to load does not exist
(`process_single_fragment` installs no handler for it). -/
inductive LoadError where
  | fileNotFound (path : String)
deriving DecidableEq

/-- `read_extrinsic` (fuse_fragments_3DMatch.py, lines 31-35): load the 4x4 pose;
return `None` (here `Option.none`) if any entry is NaN.  `np.loadtxt` raises if
the file is missing, modelled by the `Except` error. -/
def read_extrinsic (fs : FS) (filepath : String) : Except LoadError (Option M4) :=
  match fs.poseFile filepath with
  | Option.none => .error (.fileNotFound filepath)
  | Option.some m =>
      if ∃ i j, m i j = Option.none then .ok Option.none
      else .ok (Option.some (Matrix.of fun i j => (m i j).getD 0))

/-- `depth_path[:-10] + '.pose.txt'` (line 77): drop the last 10 characters of
the depth path and append the pose suffix. -/
def posePathOf (depth_path : String) : String :=
  String.mk (depth_path.data.take (depth_path.data.length - 10)) ++ ".pose.txt"

/-- The configuration surface of the script (parse_args, lines 169-181),
restricted to the fields the fusion code reads. -/
structure Config where
  depth_scale : ℚ
  depth_trunc : ℚ
  frames_per_frag : ℕ
  tsdf_cubic_size : ℚ
  width : ℕ
  height : ℕ
  threads : ℕ

/-- An RGBD image as assembled by `read_rgbd_image`: the source files and the
conversion parameters handed to Open3D. -/
structure RGBDImage where
  colorFile : String
  depthFile : String
  depthScale : ℚ
  depthTrunc : ℚ
  convertRgbToIntensity : Bool
deriving DecidableEq

/-- `read_rgbd_image` (lines 38-49): when `color_file is None` the depth file is
substituted for the color channel. -/
def read_rgbd_image (cfg : Config) (color_file : Option String) (depth_file : String)
    (convert_rgb_to_intensity : Bool) : RGBDImage :=
  { colorFile := color_file.getD depth_file
    depthFile := depth_file
    depthScale := cfg.depth_scale
    depthTrunc := cfg.depth_trunc
    convertRgbToIntensity := convert_rgb_to_intensity }

/-- `o3d.integration.TSDFVolumeColorType`: the two values the script selects
between, `'None'` and `'RGB8'` (lines 58-61). -/
inductive TSDFColorType where
  | none
  | rgb8
deriving DecidableEq

/-- One call to `volume.integrate(rgbd, intrinsic, extrinsic)` (line 91):
the RGBD image and the extrinsic matrix passed in. -/
structure IntegrateCall where
  rgbd : RGBDImage
  pose : M4
deriving DecidableEq

/-- The `ScalableTSDFVolume` as the script observes it: its construction
parameters (lines 63-65) and the ordered history of `integrate` calls. -/
structure TSDFVolume where
  voxelLength : ℚ
  sdfTrunc : ℚ
  colorType : TSDFColorType
  calls : List IntegrateCall
deriving DecidableEq

/-- `volume.integrate(rgbd, intrinsic, extrinsic)`: appends the call to the
volume's history; the color mode is part of the volume and is not touched. -/
def TSDFVolume.integrate (vol : TSDFVolume) (rgbd : RGBDImage) (pose : M4) : TSDFVolume :=
  { vol with calls := vol.calls ++ [⟨rgbd, pose⟩] }

/-- The frame indices `range(sid, eid)` visited by `process_single_fragment`
(lines 67-71): `sid = frag_id * frames_per_frag`,
`eid = min(sid + frames_per_frag, n_frames)`. -/
def fragFrameIds (frames_per_frag n_frames frag_id : ℕ) : List ℕ :=
  let sid := frag_id * frames_per_frag
  let eid := min (sid + frames_per_frag) n_frames
  List.range' sid (eid - sid)

/-- The body of the frame loop of `process_single_fragment` (lines 71-91),
as a recursion over the remaining frame indices.  The accumulator carries
`(pose_base2world, pose_base2world_inv)`, which the script assigns together
(lines 83-84) and which both start as `None`. -/
def fragLoop (cfg : Config) (fs : FS) (color_files depth_files : List String)
    (depth_only_flag : Bool) (sid : ℕ) :
    List ℕ → Option (M4 × M4) → TSDFVolume → Except LoadError (Option (M4 × M4) × TSDFVolume)
  | [], acc, vol => .ok (acc, vol)
  | fid :: rest, acc, vol =>
    match read_extrinsic fs (posePathOf (depth_files.getD fid "")) with
    | .error e => .error e
    | .ok Option.none =>
        -- `if pose_cam2world is None: continue` (lines 80-81)
        fragLoop cfg fs color_files depth_files depth_only_flag sid rest acc vol
    | .ok (Option.some pose_cam2world) =>
        match (if fid = sid then Option.some (pose_cam2world, minv pose_cam2world) else acc) with
        | Option.none =>
            -- `if pose_base2world_inv is None: break` (lines 85-86)
            .ok (Option.none, vol)
        | Option.some (b, bInv) =>
            fragLoop cfg fs color_files depth_files depth_only_flag sid rest
              (Option.some (b, bInv))
              (vol.integrate
                (read_rgbd_image cfg
                  (if depth_only_flag then Option.none else Option.some (color_files.getD fid ""))
                  (depth_files.getD fid "") false)
                (minv (bInv * pose_cam2world)))

/-- What `process_single_fragment` writes for a fragment that produced output
(lines 95-99): the point-cloud file (determined by the final volume), and the
base pose saved alongside it. -/
structure FragmentOutput where
  cloudFile : String
  poseFile : String
  pose_base2world : M4
  volume : TSDFVolume
deriving DecidableEq

/-- `process_single_fragment` (lines 52-99).  `n_frags` is accepted and unused,
as in the script.  Returns `.ok none` when the fragment produced no output
(`return` at line 93), `.ok (some out)` when it wrote a cloud and pose, and
`.error` when a pose file was missing (`np.loadtxt` raised). -/
def process_single_fragment (cfg : Config) (fs : FS) (color_files depth_files : List String)
    (frag_id : ℕ) (_n_frags : ℕ) : Except LoadError (Option FragmentOutput) :=
  let depth_only_flag : Bool := color_files.length == 0
  let n_frames := depth_files.length
  let color_type := if depth_only_flag then TSDFColorType.none else TSDFColorType.rgb8
  let volume : TSDFVolume :=
    { voxelLength := cfg.tsdf_cubic_size / 512
      sdfTrunc := 4 / 100
      colorType := color_type
      calls := [] }
  let sid := frag_id * cfg.frames_per_frag
  match fragLoop cfg fs color_files depth_files depth_only_flag sid
      (fragFrameIds cfg.frames_per_frag n_frames frag_id) Option.none volume with
  | .error e => .error e
  | .ok (Option.none, _) => .ok Option.none
  | .ok (Option.some (b, _), vol) =>
      .ok (Option.some
        { cloudFile := "cloud_bin_" ++ toString frag_id ++ ".ply"
          poseFile := "cloud_bin_" ++ toString frag_id ++ ".pose.npy"
          pose_base2world := b
          volume := vol })

/-- `n_frags = int(math.ceil(float(n_frames) / cfg.frames_per_frag))`
(run_seq, line 117), as exact natural ceiling division. -/
def n_frags_of (n_frames frames_per_frag : ℕ) : ℕ :=
  (n_frames + frames_per_frag - 1) / frames_per_frag

/-- The per-fragment results produced by `run_seq` (lines 124-134) when the
fragment tasks are executed in the given order: each task is the pure
`process_single_fragment` applied to its own fragment index, so an execution
schedule is just an ordering of the index list.  Sequential execution
(`threads == 1`) is `order = List.range n_frags`. -/
def run_seq_results (cfg : Config) (fs : FS) (color_paths depth_paths : List String)
    (order : List ℕ) : List (ℕ × Except LoadError (Option FragmentOutput)) :=
  order.map fun frag_id =>
    (frag_id,
     process_single_fragment cfg fs color_paths depth_paths frag_id
       (n_frags_of depth_paths.length cfg.frames_per_frag))

instance instDecEqExcept {e : Type _} {a : Type _} [DecidableEq e] [DecidableEq a] :
    DecidableEq (Except e a) := fun x y =>
  match x, y with
  | .error u, .error v =>
      if h : u = v then .isTrue (congrArg Except.error h)
      else .isFalse fun hc => h (by injection hc)
  | .error _, .ok _ => .isFalse fun hc => Except.noConfusion hc
  | .ok _, .error _ => .isFalse fun hc => Except.noConfusion hc
  | .ok u, .ok v =>
      if h : u = v then .isTrue (congrArg Except.ok h)
      else .isFalse fun hc => h (by injection hc)

/-- A 3D point with rational coordinates. -/
abbrev Vec3 := ℚ × ℚ × ℚ

/-- Squared Euclidean distance between two points. -/
def distSq (p q : Vec3) : ℚ :=
  (p.1 - q.1) ^ 2 + (p.2.1 - q.2.1) ^ 2 + (p.2.2 - q.2.2) ^ 2

/-- Apply a 4x4 homogeneous rigid transform to a point. -/
def applyPose (t : M4) (p : Vec3) : Vec3 :=
  (t 0 0 * p.1 + t 0 1 * p.2.1 + t 0 2 * p.2.2 + t 0 3,
   t 1 0 * p.1 + t 1 1 * p.2.1 + t 1 2 * p.2.2 + t 1 3,
   t 2 0 * p.1 + t 2 1 * p.2.1 + t 2 2 * p.2.2 + t 2 3)

/-- Squared distance from `p` to its nearest neighbour in `target`
(`none` when the target cloud is empty). -/
def nearestDistSq : List Vec3 → Vec3 → Option ℚ
  | [], _ => Option.none
  | q :: rest, p =>
      match nearestDistSq rest p with
      | Option.none => Option.some (distSq p q)
      | Option.some d => Option.some (min (distSq p q) d)

/-- The Registration Result exposed to the caller: the transform it was
evaluated at, the fitness, and the squared inlier RMSE (kept squared so the
model stays in exact arithmetic). -/
structure RegistrationResult where
  transformation : M4
  fitness : ℚ
  inlierRMSESq : ℚ
deriving DecidableEq

/-- Modelled from the spec: Open3D's `evaluate_registration`, the operation
`icp_registration.py` (line 37) calls to report initial-alignment quality; the
Open3D implementation itself is not part of this repository.  Per the spec it
applies the given transform to the source, computes correspondences within the
distance threshold and fitness/RMSE over them, and returns a Registration
Result without performing any optimization.  The unmodified source cloud,
target cloud and transform are returned alongside the result to record that
the operation does not mutate its inputs. -/
def evaluate_registration (source target : List Vec3) (threshold : ℚ) (trans : M4) :
    RegistrationResult × List Vec3 × List Vec3 × M4 :=
  let resid := (source.map (applyPose trans)).filterMap fun p =>
    match nearestDistSq target p with
    | Option.none => Option.none
    | Option.some d => if d ≤ threshold ^ 2 then Option.some d else Option.none
  ({ transformation := trans
     fitness := (resid.length : ℚ) / (source.length : ℚ)
     inlierRMSESq := resid.sum / (resid.length : ℚ) },
   source, target, trans)

/-- Per the spec's glossary, a source point has a valid correspondence iff
some target point lies within the distance threshold of it. -/
def hasCorrespondence (target : List Vec3) (threshold : ℚ) (p : Vec3) : Bool :=
  target.any fun q => distSq p q ≤ threshold ^ 2

/-- Per the spec's glossary: fitness is the fraction of source points with a
valid correspondence under the given transform. -/
def specFitness (source target : List Vec3) (threshold : ℚ) (trans : M4) : ℚ :=
  (((source.map (applyPose trans)).countP (hasCorrespondence target threshold) : ℕ) : ℚ) /
    (source.length : ℚ)

/-- A pose file whose sixteen entries are the identity matrix (all valid). -/
def idPoseFile : PoseFile := Matrix.of fun i j => Option.some (if i = j then 1 else 0)

/-- A pose file whose entries are all NaN. -/
def nanPoseFile : PoseFile := Matrix.of fun _ _ => Option.none

/-- A two-frame depth sequence. -/
def depths2 : List String := ["0000.depth.png", "0001.depth.png"]

/-- File system with valid (identity) poses for both frames. -/
def fsId : FS :=
  ⟨fun p => if p = "0000.pose.txt" ∨ p = "0001.pose.txt"
    then Option.some idPoseFile else Option.none⟩

/-- File system with NaN poses for both frames. -/
def fsNaN : FS :=
  ⟨fun p => if p = "0000.pose.txt" ∨ p = "0001.pose.txt"
    then Option.some nanPoseFile else Option.none⟩

/-- File system where frame 0 has a NaN pose and frame 1 a valid pose. -/
def fsInvalidFirst : FS :=
  ⟨fun p => if p = "0000.pose.txt" then Option.some nanPoseFile
    else if p = "0001.pose.txt" then Option.some idPoseFile else Option.none⟩

/-- File system where frame 0's pose file is missing and frame 1's is valid. -/
def fsMissingFirst : FS :=
  ⟨fun p => if p = "0001.pose.txt" then Option.some idPoseFile else Option.none⟩

/-- A configuration with two frames per fragment. -/
def cfg2 : Config :=
  { depth_scale := 1000, depth_trunc := 6, frames_per_frag := 2,
    tsdf_cubic_size := 3, width := 640, height := 480, threads := 1 }

/-- The RGBD image the script builds for frame 0 in depth-only mode. -/
def rgbd00 : RGBDImage := ⟨"0000.depth.png", "0000.depth.png", 1000, 6, false⟩

/-- The RGBD image the script builds for frame 1 in depth-only mode. -/
def rgbd01 : RGBDImage := ⟨"0001.depth.png", "0001.depth.png", 1000, 6, false⟩

/-- The fragment output produced by `process_single_fragment cfg2 fsId [] depths2 0 1`. -/
def out0 : FragmentOutput :=
  { cloudFile := "cloud_bin_0.ply"
    poseFile := "cloud_bin_0.pose.npy"
    pose_base2world := 1
    volume := { voxelLength := 3 / 512, sdfTrunc := 4 / 100, colorType := .none,
                calls := [⟨rgbd00, 1⟩, ⟨rgbd01, 1⟩] } }

/-- An empty depth-only TSDF volume with the parameters of `cfg2`. -/
def vol2 : TSDFVolume := { voxelLength := 3 / 512, sdfTrunc := 4 / 100,
                           colorType := .none, calls := [] }

theorem minv_eq_inv (m : M4) : minv m = m⁻¹ := by
  rw [Matrix.inv_def, Ring.inverse_eq_inv]
  rfl

theorem minv_mul_self (m : M4) (h : IsUnit m.det) : minv m * m = 1 := by
  rw [minv_eq_inv]
  exact Matrix.nonsing_inv_mul m h

theorem minv_one : minv (1 : M4) = 1 := by
  rw [minv, Matrix.det_one, Matrix.adjugate_one, inv_one, one_smul]

/-- A frame whose pose file parses but contains NaN is skipped: the loop state
(base pose and volume) is untouched and processing continues with the rest. -/
theorem fragLoop_skip (cfg : Config) (fs : FS) (color_files depth_files : List String)
    (dflag : Bool) (sid fid : ℕ) (rest : List ℕ) (acc : Option (M4 × M4)) (vol : TSDFVolume)
    (h : read_extrinsic fs (posePathOf (depth_files.getD fid "")) = .ok Option.none) :
    fragLoop cfg fs color_files depth_files dflag sid (fid :: rest) acc vol =
      fragLoop cfg fs color_files depth_files dflag sid rest acc vol := by
  simp only [fragLoop]
  rw [h]

/-- A frame whose pose file is missing makes the whole loop raise: `np.loadtxt`
throws and `process_single_fragment` installs no handler. -/
theorem fragLoop_missing_raises (cfg : Config) (fs : FS) (color_files depth_files : List String)
    (dflag : Bool) (sid fid : ℕ) (rest : List ℕ) (acc : Option (M4 × M4)) (vol : TSDFVolume)
    (h : fs.poseFile (posePathOf (depth_files.getD fid "")) = Option.none) :
    fragLoop cfg fs color_files depth_files dflag sid (fid :: rest) acc vol =
      .error (.fileNotFound (posePathOf (depth_files.getD fid ""))) := by
  simp only [fragLoop, read_extrinsic]
  rw [h]

/-- Unfolding the loop at the head of the range when the base frame's pose is
valid: the base pose pair is recorded and the base frame itself is integrated
with extrinsic `inv(inv(b) * b)`. -/
theorem fragLoop_base_step (cfg : Config) (fs : FS) (color_files depth_files : List String)
    (dflag : Bool) (sid : ℕ) (rest : List ℕ) (vol : TSDFVolume) (b : M4)
    (h : read_extrinsic fs (posePathOf (depth_files.getD sid "")) = .ok (Option.some b)) :
    fragLoop cfg fs color_files depth_files dflag sid (sid :: rest) Option.none vol =
      fragLoop cfg fs color_files depth_files dflag sid rest (Option.some (b, minv b))
        (vol.integrate
          (read_rgbd_image cfg
            (if dflag then Option.none else Option.some (color_files.getD sid ""))
            (depth_files.getD sid "") false)
          (minv (minv b * b))) := by
  simp only [fragLoop]
  rw [h]
  simp

/-- When the base-frame index `sid` never shows a valid pose, the loop
establishes no base and integrates nothing: it either raises (a missing file)
or finishes with no base pose and the volume exactly as it was. -/
theorem fragLoop_no_base (cfg : Config) (fs : FS) (color_files depth_files : List String)
    (dflag : Bool) (sid : ℕ) :
    ∀ (fids : List ℕ) (vol : TSDFVolume),
      (∀ b, sid ∈ fids →
        read_extrinsic fs (posePathOf (depth_files.getD sid "")) ≠ .ok (Option.some b)) →
      (∃ e, fragLoop cfg fs color_files depth_files dflag sid fids Option.none vol = .error e) ∨
      fragLoop cfg fs color_files depth_files dflag sid fids Option.none vol =
        .ok (Option.none, vol) := by
  intro fids
  induction fids with
  | nil => intro vol _; right; simp [fragLoop]
  | cons fid rest ih =>
      intro vol hvalid
      cases hread : read_extrinsic fs (posePathOf (depth_files.getD fid "")) with
      | error e => left; exact ⟨e, by simp only [fragLoop, hread]⟩
      | ok o =>
          cases o with
          | none =>
              rw [fragLoop_skip cfg fs color_files depth_files dflag sid fid rest _ vol hread]
              exact ih vol fun b hb => hvalid b (List.mem_cons_of_mem _ hb)
          | some p =>
              have hfid : fid ≠ sid := by
                intro heq
                subst heq
                exact hvalid p (List.mem_cons_self _ _) hread
              right
              simp only [fragLoop, hread, if_neg hfid]

/-- Once the base pose pair is established it is never modified, the color mode
of the volume is never modified, and every later integration appends a call
whose extrinsic is `inv(bInv * p)` for the valid pose `p` of some frame in the
remaining range, with the RGBD image assembled from that frame's files. -/
theorem fragLoop_some_spec (cfg : Config) (fs : FS) (color_files depth_files : List String)
    (dflag : Bool) (sid : ℕ) (b bInv : M4) :
    ∀ (fids : List ℕ), sid ∉ fids →
      ∀ (vol : TSDFVolume) (res : Option (M4 × M4) × TSDFVolume),
        fragLoop cfg fs color_files depth_files dflag sid fids
          (Option.some (b, bInv)) vol = .ok res →
        res.1 = Option.some (b, bInv) ∧ res.2.colorType = vol.colorType ∧
        ∃ l, res.2.calls = vol.calls ++ l ∧
          ∀ c ∈ l, ∃ fid, fid ∈ fids ∧ ∃ p,
            read_extrinsic fs (posePathOf (depth_files.getD fid "")) = .ok (Option.some p) ∧
            c.pose = minv (bInv * p) ∧
            c.rgbd = read_rgbd_image cfg
              (if dflag then Option.none else Option.some (color_files.getD fid ""))
              (depth_files.getD fid "") false := by
  intro fids
  induction fids with
  | nil =>
      intro _ vol res h
      simp only [fragLoop, Except.ok.injEq] at h
      subst h
      exact ⟨rfl, rfl, [], by simp⟩
  | cons fid rest ih =>
      intro hmem vol res h
      have hfid : ¬ fid = sid := fun hc => hmem (hc ▸ List.mem_cons_self _ _)
      have hrest : sid ∉ rest := fun hc => hmem (List.mem_cons_of_mem _ hc)
      simp only [fragLoop] at h
      cases hread : read_extrinsic fs (posePathOf (depth_files.getD fid "")) with
      | error e => rw [hread] at h; exact Except.noConfusion h
      | ok o =>
          cases o with
          | none =>
              rw [hread] at h
              obtain ⟨h1, h2, l, h3, h4⟩ := ih hrest vol res h
              exact ⟨h1, h2, l, h3, fun c hc =>
                let ⟨fid', hf, p, hp⟩ := h4 c hc
                ⟨fid', List.mem_cons_of_mem _ hf, p, hp⟩⟩
          | some p =>
              simp only [hread, if_neg hfid] at h
              obtain ⟨h1, h2, l, h3, h4⟩ := ih hrest _ res h
              refine ⟨h1, by simpa [TSDFVolume.integrate] using h2,
                ⟨read_rgbd_image cfg
                    (if dflag then Option.none else Option.some (color_files.getD fid ""))
                    (depth_files.getD fid "") false,
                  minv (bInv * p)⟩ :: l, ?_, ?_⟩
              · rw [h3]; simp [TSDFVolume.integrate]
              · intro c hc
                cases List.mem_cons.mp hc with
                | inl hhead =>
                    exact ⟨fid, List.mem_cons_self _ _, p, hread, by rw [hhead], by rw [hhead]⟩
                | inr htail =>
                    let ⟨fid', hf, q, hq⟩ := h4 c htail
                    exact ⟨fid', List.mem_cons_of_mem _ hf, q, hq⟩

/-- The color mode of the volume is never modified by the frame loop, whatever
happens inside it. -/
theorem fragLoop_colorType (cfg : Config) (fs : FS) (color_files depth_files : List String)
    (dflag : Bool) (sid : ℕ) :
    ∀ (fids : List ℕ) (acc : Option (M4 × M4)) (vol : TSDFVolume)
      (res : Option (M4 × M4) × TSDFVolume),
      fragLoop cfg fs color_files depth_files dflag sid fids acc vol = .ok res →
      res.2.colorType = vol.colorType := by
  intro fids
  induction fids with
  | nil =>
      intro acc vol res h
      simp only [fragLoop, Except.ok.injEq] at h
      subst h
      rfl
  | cons fid rest ih =>
      intro acc vol res h
      simp only [fragLoop] at h
      cases hread : read_extrinsic fs (posePathOf (depth_files.getD fid "")) with
      | error e => rw [hread] at h; exact Except.noConfusion h
      | ok o =>
          cases o with
          | none =>
              simp only [hread] at h
              exact ih acc vol res h
          | some p =>
              by_cases hfs : fid = sid
              · simp only [hread, if_pos hfs] at h
                simpa [TSDFVolume.integrate] using ih _ _ res h
              · simp only [hread, if_neg hfs] at h
                cases acc with
                | none =>
                    simp only [Except.ok.injEq] at h
                    subst h
                    rfl
                | some pr =>
                    simpa [TSDFVolume.integrate] using ih _ _ res h

/-- Anatomy of a successful fragment run: if `process_single_fragment` produced
output, then (1) the base pose is the valid pose of the *first* frame of the
range, (2) the volume's color mode is the one chosen at construction from the
color-file list, (3) the first integrate call is the base frame, integrated
with extrinsic `inv(inv(base) * base)`, and (4) every integrate call carries
extrinsic `inv(inv(base) * p)` for the valid pose `p` of some frame of the
range, with the RGBD image assembled from that frame's files. -/
theorem process_spec (cfg : Config) (fs : FS) (color_files depth_files : List String)
    (frag_id n_frags : ℕ) (out : FragmentOutput)
    (h : process_single_fragment cfg fs color_files depth_files frag_id n_frags =
      .ok (Option.some out)) :
    read_extrinsic fs (posePathOf (depth_files.getD (frag_id * cfg.frames_per_frag) "")) =
      .ok (Option.some out.pose_base2world) ∧
    out.volume.colorType =
      (if (color_files.length == 0 : Bool) then TSDFColorType.none else TSDFColorType.rgb8) ∧
    (∃ l, out.volume.calls =
      ⟨read_rgbd_image cfg
          (if (color_files.length == 0 : Bool) then Option.none
           else Option.some (color_files.getD (frag_id * cfg.frames_per_frag) ""))
          (depth_files.getD (frag_id * cfg.frames_per_frag) "") false,
        minv (minv out.pose_base2world * out.pose_base2world)⟩ :: l) ∧
    (∀ c ∈ out.volume.calls,
      ∃ fid, fid ∈ fragFrameIds cfg.frames_per_frag depth_files.length frag_id ∧ ∃ p,
        read_extrinsic fs (posePathOf (depth_files.getD fid "")) = .ok (Option.some p) ∧
        c.pose = minv (minv out.pose_base2world * p) ∧
        c.rgbd = read_rgbd_image cfg
          (if (color_files.length == 0 : Bool) then Option.none
           else Option.some (color_files.getD fid ""))
          (depth_files.getD fid "") false) := by
  simp only [process_single_fragment] at h
  set dflag : Bool := (color_files.length == 0) with hdflag
  set vol0 : TSDFVolume :=
    { voxelLength := cfg.tsdf_cubic_size / 512, sdfTrunc := 4 / 100,
      colorType := if dflag then TSDFColorType.none else TSDFColorType.rgb8,
      calls := [] } with hvol0
  have hfids0 : fragFrameIds cfg.frames_per_frag depth_files.length frag_id =
      List.range' (frag_id * cfg.frames_per_frag)
        (min (frag_id * cfg.frames_per_frag + cfg.frames_per_frag) depth_files.length -
          frag_id * cfg.frames_per_frag) := rfl
  cases hrun : fragLoop cfg fs color_files depth_files dflag (frag_id * cfg.frames_per_frag)
      (fragFrameIds cfg.frames_per_frag depth_files.length frag_id) Option.none vol0 with
  | error e => rw [hrun] at h; exact Except.noConfusion h
  | ok pr =>
      rw [hrun] at h
      rcases pr with ⟨acc, vol⟩
      cases acc with
      | none => exact absurd h (by simp)
      | some bb =>
          rcases bb with ⟨b, bInv⟩
          simp only [Except.ok.injEq, Option.some.injEq] at h
          subst h
          -- analyze the loop run
          cases hk : min (frag_id * cfg.frames_per_frag + cfg.frames_per_frag)
              depth_files.length - frag_id * cfg.frames_per_frag with
          | zero =>
              rw [hfids0, hk] at hrun
              simp only [List.range', fragLoop, Except.ok.injEq] at hrun
              exact absurd (congrArg Prod.fst hrun).symm (by simp)
          | succ k =>
              rw [hfids0, hk] at hrun
              have hcons : List.range' (frag_id * cfg.frames_per_frag) (k + 1) =
                  (frag_id * cfg.frames_per_frag) ::
                    List.range' (frag_id * cfg.frames_per_frag + 1) k := rfl
              rw [hcons] at hrun
              have hnotin : (frag_id * cfg.frames_per_frag) ∉
                  List.range' (frag_id * cfg.frames_per_frag + 1) k := by
                intro hc
                have := List.mem_range'_1.mp hc
                omega
              cases hread : read_extrinsic fs
                  (posePathOf (depth_files.getD (frag_id * cfg.frames_per_frag) "")) with
              | error e =>
                  simp only [fragLoop, hread] at hrun
                  exact Except.noConfusion hrun
              | ok o =>
                  cases o with
                  | none =>
                      rw [fragLoop_skip _ _ _ _ _ _ _ _ _ _ hread] at hrun
                      rcases fragLoop_no_base cfg fs color_files depth_files dflag
                          (frag_id * cfg.frames_per_frag)
                          (List.range' (frag_id * cfg.frames_per_frag + 1) k) vol0
                          (fun q hq => absurd hq hnotin) with ⟨e, he⟩ | hok
                      · rw [he] at hrun; exact Except.noConfusion hrun
                      · rw [hok] at hrun
                        exact absurd (congrArg Prod.fst (by injection hrun)).symm (by simp)
                  | some b0 =>
                      rw [fragLoop_base_step _ _ _ _ _ _ _ _ _ hread] at hrun
                      obtain ⟨hacc, hcolor, l, hcalls, hl⟩ :=
                        fragLoop_some_spec cfg fs color_files depth_files dflag
                          (frag_id * cfg.frames_per_frag) b0 (minv b0) _ hnotin _ _ hrun
                      simp only [Option.some.injEq, Prod.mk.injEq] at hacc
                      obtain ⟨hb, hbInv⟩ := hacc
                      subst hb
                      dsimp only
                      refine ⟨rfl, ?_, ?_, ?_⟩
                      · simpa [TSDFVolume.integrate, hvol0] using hcolor
                      · refine ⟨l, ?_⟩
                        simpa [TSDFVolume.integrate, hvol0] using hcalls
                      · intro c hc
                        have hc2 : c ∈ vol.calls := hc
                        rw [hcalls] at hc2
                        simp only [TSDFVolume.integrate, hvol0, List.nil_append,
                          List.singleton_append, List.mem_cons] at hc2
                        cases hc2 with
                        | inl hhead =>
                            refine ⟨frag_id * cfg.frames_per_frag, ?_, b, hread, ?_, ?_⟩
                            · rw [hfids0, hk, hcons]; exact List.mem_cons_self _ _
                            · rw [hhead]
                            · rw [hhead]
                        | inr htail =>
                            obtain ⟨fid, hf, p, hp1, hp2, hp3⟩ := hl c htail
                            refine ⟨fid, ?_, p, hp1, hp2, hp3⟩
                            rw [hfids0, hk, hcons]
                            exact List.mem_cons_of_mem _ hf

/-- If every pose file of the given frames parses to NaN, the loop skips every
frame: no base is established and the volume is returned untouched. -/
theorem fragLoop_all_nan (cfg : Config) (fs : FS) (color_files depth_files : List String)
    (dflag : Bool) (sid : ℕ) :
    ∀ (fids : List ℕ) (vol : TSDFVolume),
      (∀ fid ∈ fids,
        read_extrinsic fs (posePathOf (depth_files.getD fid "")) = .ok Option.none) →
      fragLoop cfg fs color_files depth_files dflag sid fids Option.none vol =
        .ok (Option.none, vol) := by
  intro fids
  induction fids with
  | nil => intro vol _; rfl
  | cons fid rest ih =>
      intro vol hall
      rw [fragLoop_skip _ _ _ _ _ _ _ _ _ _ (hall fid (List.mem_cons_self _ _))]
      exact ih vol fun f hf => hall f (List.mem_cons_of_mem _ hf)

/-- If the pose of the first frame of the range is invalid (NaN), any normal
return of `process_single_fragment` carries no output. -/
theorem process_none_of_base_invalid (cfg : Config) (fs : FS)
    (color_files depth_files : List String) (frag_id n_frags : ℕ)
    (res : Option FragmentOutput)
    (hbase : read_extrinsic fs
      (posePathOf (depth_files.getD (frag_id * cfg.frames_per_frag) "")) = .ok Option.none)
    (h : process_single_fragment cfg fs color_files depth_files frag_id n_frags = .ok res) :
    res = Option.none := by
  simp only [process_single_fragment] at h
  rcases fragLoop_no_base cfg fs color_files depth_files (color_files.length == 0)
      (frag_id * cfg.frames_per_frag)
      (fragFrameIds cfg.frames_per_frag depth_files.length frag_id)
      { voxelLength := cfg.tsdf_cubic_size / 512, sdfTrunc := 4 / 100,
        colorType := if (color_files.length == 0 : Bool) then TSDFColorType.none
          else TSDFColorType.rgb8,
        calls := [] }
      (fun b _ hc => by rw [hbase] at hc; exact absurd hc (by simp)) with ⟨e, he⟩ | hok
  · rw [he] at h; exact Except.noConfusion h
  · rw [hok] at h
    simp only [Except.ok.injEq] at h
    exact h.symm

/-- If the pose of the first frame of the (non-empty) range is valid, any
normal return of `process_single_fragment` carries output whose saved base
pose is exactly that pose. -/
theorem process_some_of_base_valid (cfg : Config) (fs : FS)
    (color_files depth_files : List String) (frag_id n_frags : ℕ) (b : M4)
    (res : Option FragmentOutput)
    (hrange : frag_id * cfg.frames_per_frag <
      min (frag_id * cfg.frames_per_frag + cfg.frames_per_frag) depth_files.length)
    (hbase : read_extrinsic fs
      (posePathOf (depth_files.getD (frag_id * cfg.frames_per_frag) "")) =
      .ok (Option.some b))
    (h : process_single_fragment cfg fs color_files depth_files frag_id n_frags = .ok res) :
    ∃ out, res = Option.some out ∧ out.pose_base2world = b := by
  simp only [process_single_fragment] at h
  have hfids0 : fragFrameIds cfg.frames_per_frag depth_files.length frag_id =
      List.range' (frag_id * cfg.frames_per_frag)
        (min (frag_id * cfg.frames_per_frag + cfg.frames_per_frag) depth_files.length -
          frag_id * cfg.frames_per_frag) := rfl
  cases hk : min (frag_id * cfg.frames_per_frag + cfg.frames_per_frag) depth_files.length -
      frag_id * cfg.frames_per_frag with
  | zero => omega
  | succ k =>
      rw [hfids0, hk] at h
      have hcons : List.range' (frag_id * cfg.frames_per_frag) (k + 1) =
          (frag_id * cfg.frames_per_frag) ::
            List.range' (frag_id * cfg.frames_per_frag + 1) k := rfl
      rw [hcons] at h
      have hnotin : (frag_id * cfg.frames_per_frag) ∉
          List.range' (frag_id * cfg.frames_per_frag + 1) k := by
        intro hc
        have := List.mem_range'_1.mp hc
        omega
      rw [fragLoop_base_step _ _ _ _ _ _ _ _ _ hbase] at h
      cases hrun : fragLoop cfg fs color_files depth_files (color_files.length == 0)
          (frag_id * cfg.frames_per_frag)
          (List.range' (frag_id * cfg.frames_per_frag + 1) k)
          (Option.some (b, minv b))
          (TSDFVolume.integrate
            { voxelLength := cfg.tsdf_cubic_size / 512, sdfTrunc := 4 / 100,
              colorType := if (color_files.length == 0 : Bool) then TSDFColorType.none
                else TSDFColorType.rgb8,
              calls := [] }
            (read_rgbd_image cfg
              (if (color_files.length == 0 : Bool) then Option.none
               else Option.some (color_files.getD (frag_id * cfg.frames_per_frag) ""))
              (depth_files.getD (frag_id * cfg.frames_per_frag) "") false)
            (minv (minv b * b))) with
      | error e => rw [hrun] at h; exact Except.noConfusion h
      | ok pr =>
          rw [hrun] at h
          obtain ⟨hacc, -, -⟩ :=
            fragLoop_some_spec cfg fs color_files depth_files (color_files.length == 0)
              (frag_id * cfg.frames_per_frag) b (minv b) _ hnotin _ pr hrun
          rcases pr with ⟨acc, vol⟩
          cases acc with
          | none => exact absurd hacc (by simp)
          | some bb =>
              simp only at hacc
              simp only [Except.ok.injEq] at h
              refine ⟨_, h.symm, ?_⟩
              rcases bb with ⟨b', bInv'⟩
              have : b' = b := by
                simpa using congrArg (fun o => (o.map Prod.fst).getD 1) hacc
              simpa using this

theorem nearestDistSq_eq_none (p : Vec3) :
    ∀ target : List Vec3, nearestDistSq target p = Option.none ↔ target = [] := by
  intro target
  cases target with
  | nil => simp [nearestDistSq]
  | cons q rest =>
      simp only [nearestDistSq]
      cases nearestDistSq rest p <;> simp

theorem nearestDistSq_le_iff (p : Vec3) (c : ℚ) :
    ∀ target : List Vec3,
      (∃ d, nearestDistSq target p = Option.some d ∧ d ≤ c) ↔
      ∃ q ∈ target, distSq p q ≤ c := by
  intro target
  induction target with
  | nil => simp [nearestDistSq]
  | cons q rest ih =>
      simp only [nearestDistSq]
      cases hn : nearestDistSq rest p with
      | none =>
          have hrest : rest = [] := (nearestDistSq_eq_none p rest).mp hn
          subst hrest
          simp
      | some d =>
          rw [hn] at ih
          constructor
          · rintro ⟨d', hd', hle⟩
            simp only [Option.some.injEq] at hd'
            subst hd'
            rcases min_le_iff.mp hle with h | h
            · exact ⟨q, List.mem_cons_self _ _, h⟩
            · obtain ⟨q', hq', hle'⟩ := ih.mp ⟨d, rfl, h⟩
              exact ⟨q', List.mem_cons_of_mem _ hq', hle'⟩
          · rintro ⟨q', hq', hle'⟩
            refine ⟨min (distSq p q) d, rfl, ?_⟩
            cases List.mem_cons.mp hq' with
            | inl h => subst h; exact min_le_of_left_le hle'
            | inr h =>
                obtain ⟨d', hd', hled⟩ := ih.mpr ⟨q', h, hle'⟩
                simp only [Option.some.injEq] at hd'
                subst hd'
                exact min_le_of_right_le hled

theorem residuals_length_eq_countP (target : List Vec3) (threshold : ℚ) :
    ∀ l : List Vec3,
      (l.filterMap fun p =>
        match nearestDistSq target p with
        | Option.none => Option.none
        | Option.some d =>
            if d ≤ threshold ^ 2 then Option.some d else Option.none).length =
      l.countP (hasCorrespondence target threshold) := by
  intro l
  induction l with
  | nil => rfl
  | cons p rest ih =>
      rw [List.filterMap_cons, List.countP_cons]
      cases hn : nearestDistSq target p with
      | none =>
          have htgt : target = [] := (nearestDistSq_eq_none p target).mp hn
          subst htgt
          simpa [hasCorrespondence] using ih
      | some d =>
          by_cases hd : d ≤ threshold ^ 2
          · have hcorr : hasCorrespondence target threshold p = true := by
              rw [hasCorrespondence, List.any_eq_true]
              obtain ⟨q, hq, hle⟩ := (nearestDistSq_le_iff p (threshold ^ 2) target).mp
                ⟨d, hn, hd⟩
              exact ⟨q, hq, by simpa using hle⟩
            simp only [if_pos hd, List.length_cons, hcorr, if_pos]
            omega
          · have hcorr : hasCorrespondence target threshold p = false := by
              rw [hasCorrespondence]
              by_contra hc
              rw [Bool.not_eq_false, List.any_eq_true] at hc
              obtain ⟨q, hq, hle⟩ := hc
              obtain ⟨d', hd', hled⟩ := (nearestDistSq_le_iff p (threshold ^ 2) target).mpr
                ⟨q, hq, by simpa using hle⟩
              rw [hn] at hd'
              simp only [Option.some.injEq] at hd'
              exact hd (hd' ▸ hled)
            simpa [if_neg hd, hcorr] using ih

/-- Closed-form evaluation of a full fragment run on `fsId`: frame 0 (identity
pose) becomes the base, both frames are integrated with the identity extrinsic,
and the fragment writes its cloud and base pose. -/
theorem processEval : process_single_fragment cfg2 fsId [] depths2 0 1 =
    .ok (Option.some out0) := by
  have h0 : read_extrinsic fsId (posePathOf "0000.depth.png") = .ok (Option.some 1) := by decide
  have h1 : read_extrinsic fsId (posePathOf "0001.depth.png") = .ok (Option.some 1) := by decide
  simp [process_single_fragment, fragLoop, fragFrameIds, read_rgbd_image, TSDFVolume.integrate,
    h0, h1, minv_one, out0, cfg2, depths2, rgbd00, rgbd01,
    List.getD_cons_zero, List.getD_cons_succ]
  exact ⟨by decide, by decide⟩

/-- Claim C1 (corrected).  Base-frame selection in `process_single_fragment`:
if the pose of the *first* frame of a non-empty fragment range is valid, that
frame becomes the fragment's base frame and any normal run produces output
whose saved base pose is exactly that pose; but if the first frame's pose is
invalid (NaN), no later frame ever becomes the base: any normal run produces
no output at all (the loop breaks at the first later valid pose or exhausts
the range). -/
theorem base_frame_selection (cfg : Config) (fs : FS)
    (color_files depth_files : List String) (frag_id n_frags : ℕ)
    (hrange : frag_id * cfg.frames_per_frag <
      min (frag_id * cfg.frames_per_frag + cfg.frames_per_frag) depth_files.length) :
    (∀ (b : M4) (res : Option FragmentOutput),
      read_extrinsic fs
        (posePathOf (depth_files.getD (frag_id * cfg.frames_per_frag) "")) =
        .ok (Option.some b) →
      process_single_fragment cfg fs color_files depth_files frag_id n_frags = .ok res →
      ∃ out, res = Option.some out ∧ out.pose_base2world = b) ∧
    (∀ res : Option FragmentOutput,
      read_extrinsic fs
        (posePathOf (depth_files.getD (frag_id * cfg.frames_per_frag) "")) =
        .ok Option.none →
      process_single_fragment cfg fs color_files depth_files frag_id n_frags = .ok res →
      res = Option.none) :=
  ⟨fun b res hbase h =>
      process_some_of_base_valid cfg fs color_files depth_files frag_id n_frags b res
        hrange hbase h,
   fun res hbase h =>
      process_none_of_base_invalid cfg fs color_files depth_files frag_id n_frags res hbase h⟩

/-- Claim C1, counterexample to the claim as stated: in a two-frame fragment
whose first pose file is NaN and whose second pose file is valid, the valid
second frame does *not* become the base frame and the fragment produces no
output, contradicting "the first frame in the range whose pose file parses
without NaN becomes the fragment's base frame ... the fragment still
integrates all later valid frames and produces output". -/
theorem first_valid_pose_not_base_cex :
    read_extrinsic fsInvalidFirst (posePathOf (depths2.getD 0 "")) = .ok Option.none ∧
    read_extrinsic fsInvalidFirst (posePathOf (depths2.getD 1 "")) = .ok (Option.some 1) ∧
    process_single_fragment cfg2 fsInvalidFirst [] depths2 0 1 = .ok Option.none := by
  refine ⟨by decide, by decide, by decide⟩

/-- Claim C1, witness: the amended theorem applied to the concrete two-frame
run with valid first pose. -/
theorem base_frame_selection_witness :
    ∃ out, Option.some out0 = Option.some out ∧ out.pose_base2world = 1 :=
  (base_frame_selection cfg2 fsId [] depths2 0 1 (by decide)).1 1 (Option.some out0)
    (by decide) processEval

/-- Claim C2 (confirmed).  A fragment whose frame range contains zero valid
poses (every pose file in the range parses to NaN) returns with no output, and
the frame loop returns any volume completely untouched: `volume.integrate` is
never called. -/
theorem no_valid_pose_no_output (cfg : Config) (fs : FS)
    (color_files depth_files : List String) (frag_id n_frags : ℕ)
    (hall : ∀ fid ∈ fragFrameIds cfg.frames_per_frag depth_files.length frag_id,
      read_extrinsic fs (posePathOf (depth_files.getD fid "")) = .ok Option.none) :
    process_single_fragment cfg fs color_files depth_files frag_id n_frags =
      .ok Option.none ∧
    ∀ vol : TSDFVolume,
      fragLoop cfg fs color_files depth_files (color_files.length == 0)
        (frag_id * cfg.frames_per_frag)
        (fragFrameIds cfg.frames_per_frag depth_files.length frag_id)
        Option.none vol = .ok (Option.none, vol) := by
  have h2 := fun vol => fragLoop_all_nan cfg fs color_files depth_files
    (color_files.length == 0) (frag_id * cfg.frames_per_frag)
    (fragFrameIds cfg.frames_per_frag depth_files.length frag_id) vol hall
  refine ⟨?_, h2⟩
  simp only [process_single_fragment]
  rw [h2 _]

/-- Claim C2, witness: the concrete two-frame all-NaN run. -/
theorem no_valid_pose_no_output_witness :
    process_single_fragment cfg2 fsNaN [] depths2 0 1 = .ok Option.none :=
  (no_valid_pose_no_output cfg2 fsNaN [] depths2 0 1 (by decide)).1

/-- Claim C3 (confirmed).  Every frame integrated by a successful fragment run
is integrated with extrinsic `inv(inv(pose_base) * pose_frame)` — the frame
pose converted to the base frame's coordinates and then inverted — and the
base frame itself (the first integrate call) is integrated with
`inv(inv(pose_base) * pose_base)`, which is exactly the identity whenever the
base pose is invertible. -/
theorem integration_pose_relative (cfg : Config) (fs : FS)
    (color_files depth_files : List String) (frag_id n_frags : ℕ)
    (out : FragmentOutput)
    (h : process_single_fragment cfg fs color_files depth_files frag_id n_frags =
      .ok (Option.some out)) :
    (∀ c ∈ out.volume.calls,
      ∃ fid, fid ∈ fragFrameIds cfg.frames_per_frag depth_files.length frag_id ∧ ∃ p,
        read_extrinsic fs (posePathOf (depth_files.getD fid "")) = .ok (Option.some p) ∧
        c.pose = minv (minv out.pose_base2world * p)) ∧
    out.volume.calls.head?.map IntegrateCall.pose =
      Option.some (minv (minv out.pose_base2world * out.pose_base2world)) ∧
    (IsUnit out.pose_base2world.det →
      out.volume.calls.head?.map IntegrateCall.pose = Option.some 1) := by
  obtain ⟨-, -, ⟨l, hcalls⟩, hall⟩ :=
    process_spec cfg fs color_files depth_files frag_id n_frags out h
  have hhead : out.volume.calls.head?.map IntegrateCall.pose =
      Option.some (minv (minv out.pose_base2world * out.pose_base2world)) := by
    rw [hcalls]
    rfl
  refine ⟨?_, hhead, ?_⟩
  · intro c hc
    obtain ⟨fid, hf, p, hp1, hp2, -⟩ := hall c hc
    exact ⟨fid, hf, p, hp1, hp2⟩
  · intro hunit
    rw [hhead, minv_mul_self _ hunit, minv_one]

/-- Claim C3, witness: in the concrete identity-pose run, the base frame is
integrated with the identity extrinsic. -/
theorem integration_pose_relative_witness :
    out0.volume.calls.head?.map IntegrateCall.pose = Option.some 1 :=
  (integration_pose_relative cfg2 fsId [] depths2 0 1 out0 processEval).2.2
    (by rw [show out0.pose_base2world = 1 from rfl, Matrix.det_one]; exact isUnit_one)

/-- Claim C4 (confirmed).  The frame indices visited by
`process_single_fragment` for fragment `frag_id` are exactly those of
`[frag_id*frames_per_frag, min(n_frames, (frag_id+1)*frames_per_frag))`, in
strictly increasing order. -/
theorem fragment_range_iteration (frames_per_frag n_frames frag_id : ℕ) :
    (fragFrameIds frames_per_frag n_frames frag_id).Pairwise (· < ·) ∧
    ∀ x, x ∈ fragFrameIds frames_per_frag n_frames frag_id ↔
      frag_id * frames_per_frag ≤ x ∧
        x < min n_frames ((frag_id + 1) * frames_per_frag) := by
  constructor
  · exact List.pairwise_lt_range' _ _ 1
  · intro x
    rw [show fragFrameIds frames_per_frag n_frames frag_id =
      List.range' (frag_id * frames_per_frag)
        (min (frag_id * frames_per_frag + frames_per_frag) n_frames -
          frag_id * frames_per_frag) from rfl,
      List.mem_range'_1]
    have hmul : (frag_id + 1) * frames_per_frag =
        frag_id * frames_per_frag + frames_per_frag := by ring
    omega

/-- Claim C5 (corrected).  A pose file that parses with a NaN entry is treated
as an invalid pose: the frame is skipped without raising and processing of the
fragment continues with the remaining frames.  A *missing* pose file, however,
is not skipped: `np.loadtxt` raises, the loop aborts with the error and the
fragment dies. -/
theorem pose_error_handling (cfg : Config) (fs : FS)
    (color_files depth_files : List String) (dflag : Bool) (sid fid : ℕ)
    (rest : List ℕ) (acc : Option (M4 × M4)) (vol : TSDFVolume) :
    (read_extrinsic fs (posePathOf (depth_files.getD fid "")) = .ok Option.none →
      fragLoop cfg fs color_files depth_files dflag sid (fid :: rest) acc vol =
        fragLoop cfg fs color_files depth_files dflag sid rest acc vol) ∧
    (fs.poseFile (posePathOf (depth_files.getD fid "")) = Option.none →
      fragLoop cfg fs color_files depth_files dflag sid (fid :: rest) acc vol =
        .error (.fileNotFound (posePathOf (depth_files.getD fid "")))) :=
  ⟨fun h => fragLoop_skip cfg fs color_files depth_files dflag sid fid rest acc vol h,
   fun h => fragLoop_missing_raises cfg fs color_files depth_files dflag sid fid rest acc vol h⟩

/-- Claim C5, counterexample to the "missing pose file is not an error" part:
with frame 0's pose file absent (and frame 1's present and valid), the whole
fragment aborts with a file-not-found error instead of skipping the frame and
continuing. -/
theorem missing_pose_not_skipped_cex :
    fsMissingFirst.poseFile (posePathOf (depths2.getD 0 "")) = Option.none ∧
    fsMissingFirst.poseFile (posePathOf (depths2.getD 1 "")) ≠ Option.none ∧
    process_single_fragment cfg2 fsMissingFirst [] depths2 0 1 =
      .error (.fileNotFound "0000.pose.txt") := by
  refine ⟨by decide, by decide, by decide⟩

/-- Claim C5, witness: a concrete NaN-pose frame is skipped, leaving loop state
untouched. -/
theorem pose_error_handling_witness :
    fragLoop cfg2 fsNaN [] depths2 true 0 (0 :: [1]) Option.none vol2 =
      fragLoop cfg2 fsNaN [] depths2 true 0 [1] Option.none vol2 :=
  (pose_error_handling cfg2 fsNaN [] depths2 true 0 0 [1] Option.none vol2).1 (by decide)

/-- Claim C6 (confirmed).  The TSDF volume's color mode is fixed once at
construction — depth-only (`'None'`) exactly when the sequence has no color
files, `'RGB8'` otherwise — and no step of the frame loop ever changes it. -/
theorem color_mode_fixed (cfg : Config) (fs : FS)
    (color_files depth_files : List String) (frag_id n_frags : ℕ) :
    (∀ (fids : List ℕ) (acc : Option (M4 × M4)) (vol : TSDFVolume)
        (res : Option (M4 × M4) × TSDFVolume),
      fragLoop cfg fs color_files depth_files (color_files.length == 0)
        (frag_id * cfg.frames_per_frag) fids acc vol = .ok res →
      res.2.colorType = vol.colorType) ∧
    (∀ out : FragmentOutput,
      process_single_fragment cfg fs color_files depth_files frag_id n_frags =
        .ok (Option.some out) →
      (out.volume.colorType = TSDFColorType.none ↔ color_files = []) ∧
      (out.volume.colorType = TSDFColorType.rgb8 ↔ color_files ≠ [])) := by
  refine ⟨fun fids acc vol res h =>
    fragLoop_colorType cfg fs color_files depth_files _ _ fids acc vol res h, ?_⟩
  intro out h
  obtain ⟨-, hcolor, -, -⟩ :=
    process_spec cfg fs color_files depth_files frag_id n_frags out h
  rcases color_files with - | ⟨c, cs⟩ <;> simp_all

/-- Claim C6, witness: in the concrete depth-only run the volume's color mode
is `'None'` and not `'RGB8'`. -/
theorem color_mode_fixed_witness :
    (out0.volume.colorType = TSDFColorType.none ↔ ([] : List String) = []) ∧
    (out0.volume.colorType = TSDFColorType.rgb8 ↔ ([] : List String) ≠ []) :=
  (color_mode_fixed cfg2 fsId [] depths2 0 1).2 out0 processEval

/-- Claim C7 (confirmed; modelled from the spec since `evaluate_registration`
is Open3D library code).  The one-shot evaluate operation returns a
Registration Result for exactly the supplied transform, with fitness equal to
the fraction of source points having a correspondence within the threshold
under that transform, and it leaves the source cloud, the target cloud and the
transform unchanged; no ICP iteration or solve is involved. -/
theorem evaluate_registration_spec (source target : List Vec3) (threshold : ℚ) (trans : M4) :
    (evaluate_registration source target threshold trans).2.1 = source ∧
    (evaluate_registration source target threshold trans).2.2.1 = target ∧
    (evaluate_registration source target threshold trans).2.2.2 = trans ∧
    (evaluate_registration source target threshold trans).1.transformation = trans ∧
    (evaluate_registration source target threshold trans).1.fitness =
      specFitness source target threshold trans := by
  refine ⟨rfl, rfl, rfl, rfl, ?_⟩
  simp only [evaluate_registration, specFitness,
    residuals_length_eq_countP target threshold (source.map (applyPose trans))]

/-- First-match lookup in a list of key-value pairs whose value is a function
of the key returns that function's value at any key present in the list. -/
theorem lookup_map_eq {β : Type _} (g : ℕ → β) :
    ∀ (l : List ℕ) (a : ℕ), a ∈ l →
      (l.map fun i => (i, g i)).lookup a = Option.some (g a) := by
  intro l
  induction l with
  | nil => intro a ha; exact absurd ha (List.not_mem_nil a)
  | cons i rest ih =>
      intro a ha
      by_cases hai : a = i
      · subst hai
        simp [List.lookup]
      · have hmem : a ∈ rest := by
          cases List.mem_cons.mp ha with
          | inl h => exact absurd h hai
          | inr h => exact h
        have hbeq : (a == i) = false := by simp [hai]
        rw [List.map_cons, List.lookup, hbeq]
        exact ih a hmem

/-- Claim C8 (confirmed).  Each fragment task is the pure function
`process_single_fragment` of its own fragment index and owns its private
volume, so executing the fragment tasks of `run_seq` under *any* schedule (any
permutation of the fragment indices, covering every worker count) yields, per
fragment index, exactly the same result as the sequential 1-worker order. -/
theorem worker_schedule_independence (cfg : Config) (fs : FS)
    (color_paths depth_paths : List String) (order : List ℕ) (frag_id : ℕ)
    (hperm : order.Perm (List.range (n_frags_of depth_paths.length cfg.frames_per_frag)))
    (hlt : frag_id < n_frags_of depth_paths.length cfg.frames_per_frag) :
    (run_seq_results cfg fs color_paths depth_paths order).lookup frag_id =
      (run_seq_results cfg fs color_paths depth_paths
        (List.range (n_frags_of depth_paths.length cfg.frames_per_frag))).lookup frag_id ∧
    (run_seq_results cfg fs color_paths depth_paths order).lookup frag_id =
      Option.some (process_single_fragment cfg fs color_paths depth_paths frag_id
        (n_frags_of depth_paths.length cfg.frames_per_frag)) := by
  have hmem : frag_id ∈ order := hperm.mem_iff.mpr (List.mem_range.mpr hlt)
  have h1 := lookup_map_eq
    (fun i => process_single_fragment cfg fs color_paths depth_paths i
      (n_frags_of depth_paths.length cfg.frames_per_frag)) order frag_id hmem
  have h2 := lookup_map_eq
    (fun i => process_single_fragment cfg fs color_paths depth_paths i
      (n_frags_of depth_paths.length cfg.frames_per_frag))
    (List.range (n_frags_of depth_paths.length cfg.frames_per_frag)) frag_id
    (List.mem_range.mpr hlt)
  exact ⟨by rw [run_seq_results, run_seq_results, h1, h2],
         by rw [run_seq_results, h1]⟩

/-- Claim C8, witness: a concrete one-fragment sequence evaluated under the
(only) schedule agrees with the sequential order. -/
theorem worker_schedule_independence_witness :
    (run_seq_results cfg2 fsNaN [] depths2 [0]).lookup 0 =
      (run_seq_results cfg2 fsNaN [] depths2
        (List.range (n_frags_of depths2.length cfg2.frames_per_frag))).lookup 0 ∧
    (run_seq_results cfg2 fsNaN [] depths2 [0]).lookup 0 =
      Option.some (process_single_fragment cfg2 fsNaN [] depths2 0
        (n_frags_of depths2.length cfg2.frames_per_frag)) :=
  worker_schedule_independence cfg2 fsNaN [] depths2 [0] 0 (by decide) (by decide)

/-- Claim C9 (confirmed).  With `n_frags = ceil(n_frames / frames_per_frag)`,
the fragment frame ranges are each non-empty and partition `[0, n_frames)`:
every frame index below `n_frames` belongs to exactly one fragment's range. -/
theorem fragment_ranges_partition (frames_per_frag n_frames : ℕ)
    (hf : 1 ≤ frames_per_frag) (hn : 1 ≤ n_frames) :
    (∀ i, i < n_frags_of n_frames frames_per_frag →
      fragFrameIds frames_per_frag n_frames i ≠ []) ∧
    (∀ x, x < n_frames ↔
      ∃! i, i < n_frags_of n_frames frames_per_frag ∧
        x ∈ fragFrameIds frames_per_frag n_frames i) := by
  have hq : n_frags_of n_frames frames_per_frag =
      (n_frames + frames_per_frag - 1) / frames_per_frag := rfl
  have hmem : ∀ i x, x ∈ fragFrameIds frames_per_frag n_frames i ↔
      i * frames_per_frag ≤ x ∧
        x < min (i * frames_per_frag + frames_per_frag) n_frames := by
    intro i x
    rw [show fragFrameIds frames_per_frag n_frames i =
      List.range' (i * frames_per_frag)
        (min (i * frames_per_frag + frames_per_frag) n_frames -
          i * frames_per_frag) from rfl,
      List.mem_range'_1]
    omega
  have hstart : ∀ i, i < n_frags_of n_frames frames_per_frag →
      i * frames_per_frag < n_frames := by
    intro i hi
    rw [hq] at hi
    have h1 : (i + 1) * frames_per_frag ≤ n_frames + frames_per_frag - 1 :=
      (Nat.le_div_iff_mul_le (by omega)).mp hi
    have h2 : (i + 1) * frames_per_frag =
        i * frames_per_frag + frames_per_frag := by ring
    omega
  constructor
  · intro i hi hempty
    have h1 := hstart i hi
    have hlen := congrArg List.length hempty
    rw [show fragFrameIds frames_per_frag n_frames i =
      List.range' (i * frames_per_frag)
        (min (i * frames_per_frag + frames_per_frag) n_frames -
          i * frames_per_frag) from rfl] at hlen
    simp only [List.length_range', List.length_nil] at hlen
    omega
  · intro x
    constructor
    · intro hx
      refine ⟨x / frames_per_frag, ⟨?_, ?_⟩, ?_⟩
      · rw [hq]
        have h1 : x / frames_per_frag ≤ (n_frames - 1) / frames_per_frag :=
          Nat.div_le_div_right (by omega)
        have h2 : (n_frames - 1 + frames_per_frag) / frames_per_frag =
            (n_frames - 1) / frames_per_frag + 1 := Nat.add_div_right _ (by omega)
        have h3 : n_frames + frames_per_frag - 1 =
            n_frames - 1 + frames_per_frag := by omega
        have h4 : (n_frames + frames_per_frag - 1) / frames_per_frag =
            (n_frames - 1) / frames_per_frag + 1 := by rw [h3]; exact h2
        omega
      · rw [hmem]
        have h1 : x / frames_per_frag * frames_per_frag ≤ x := Nat.div_mul_le_self x _
        have h2 := Nat.div_add_mod x frames_per_frag
        have h3 : x % frames_per_frag < frames_per_frag := Nat.mod_lt _ (by omega)
        have h4 : frames_per_frag * (x / frames_per_frag) =
            x / frames_per_frag * frames_per_frag := by ring
        omega
      · intro j hj
        obtain ⟨-, hjm⟩ := hj
        rw [hmem] at hjm
        have h1 : j ≤ x / frames_per_frag :=
          (Nat.le_div_iff_mul_le (by omega)).mpr hjm.1
        have h2 : x / frames_per_frag < j + 1 := by
          rw [Nat.div_lt_iff_lt_mul (by omega : 0 < frames_per_frag)]
          have h3 : (j + 1) * frames_per_frag =
              j * frames_per_frag + frames_per_frag := by ring
          omega
        omega
    · rintro ⟨i, ⟨-, hx⟩, -⟩
      rw [hmem] at hx
      omega

/-- Claim C9, witness: three frames at two frames per fragment give two
fragments, the second of which is the non-empty range `[2, 3)`. -/
theorem fragment_ranges_partition_witness :
    fragFrameIds 2 3 1 ≠ [] :=
  (fragment_ranges_partition 2 3 (by decide) (by decide)).1 1 (by decide)

/-- Claim C10 (confirmed).  In depth-only mode (empty color-file list), every
integrate call of a successful fragment run is built from an RGBD image whose
color channel is the frame's depth file itself (the `color_file = depth_file`
substitution of `read_rgbd_image`), while the volume's color type is `'None'`. -/
theorem depth_only_color_substitution (cfg : Config) (fs : FS)
    (depth_files : List String) (frag_id n_frags : ℕ) (out : FragmentOutput)
    (h : process_single_fragment cfg fs [] depth_files frag_id n_frags =
      .ok (Option.some out)) :
    out.volume.colorType = TSDFColorType.none ∧
    ∀ c ∈ out.volume.calls, c.rgbd.colorFile = c.rgbd.depthFile ∧
      ∃ fid, fid ∈ fragFrameIds cfg.frames_per_frag depth_files.length frag_id ∧
        c.rgbd.depthFile = depth_files.getD fid "" := by
  obtain ⟨-, hcolor, -, hall⟩ :=
    process_spec cfg fs [] depth_files frag_id n_frags out h
  refine ⟨by simpa using hcolor, ?_⟩
  intro c hc
  obtain ⟨fid, hf, p, -, -, hrgbd⟩ := hall c hc
  simp only [List.length_nil, Nat.zero_mod, beq_self_eq_true, if_pos] at hrgbd
  rw [hrgbd]
  exact ⟨rfl, fid, hf, rfl⟩

/-- Claim C10, witness: in the concrete depth-only run, frame 0's integrate
call uses the depth file as the color channel. -/
theorem depth_only_color_substitution_witness :
    (⟨rgbd00, 1⟩ : IntegrateCall).rgbd.colorFile =
      (⟨rgbd00, 1⟩ : IntegrateCall).rgbd.depthFile :=
  ((depth_only_color_substitution cfg2 fsId depths2 0 1 out0 processEval).2
    ⟨rgbd00, 1⟩ (by decide)).1
